import Mathlib

/-!
Verification of the Cumulus snapshot engine (python/cumulus) against its
natural-language specification.  The Python sources are shallowly embedded:
pure functions become Lean functions over `List Char` / `Int` / `ℚ`, the
sqlite tables of the local database become lists of rows, and fallible code
returns `Option` / `Except`.  Floating-point arithmetic in the source
(`julianday` timestamps, the cleaning-benefit formula, the bucket-size
heuristics) is idealised as exact rational / real arithmetic; the concrete
inputs used in the theorems are far from any rounding boundary.
-/

set_option maxRecDepth 4000

/-! ## Local database: garbage collection (cumulus/__init__.py, LocalDatabase.garbage_collect)

The four DELETE statements operate only on the key columns, so each table is
modelled by its key columns: `snapshots` by `snapshotid`, `segments` by
`segmentid`, `segment_utilization` by `(snapshotid, segmentid)`,
`block_index` by `(blockid, segmentid)`, `subblock_signatures` by `blockid`.
A DELETE of the rows failing a membership test is the `filter` keeping the
rows that pass it. -/

structure GCDB where
  snapshots : List Nat
  segment_utilization : List (Nat × Nat)
  segments : List Nat
  block_index : List (Nat × Nat)
  subblock_signatures : List Nat
deriving DecidableEq

def garbage_collect (db : GCDB) : GCDB :=
  let su := db.segment_utilization.filter (fun r => db.snapshots.contains r.1)
  let segs := db.segments.filter (fun s => (su.map Prod.snd).contains s)
  let bi := db.block_index.filter (fun b => segs.contains b.2)
  let ss := db.subblock_signatures.filter (fun x => (bi.map Prod.fst).contains x)
  { db with segment_utilization := su, segments := segs,
            block_index := bi, subblock_signatures := ss }

/-! ## Snapshot version gate (cumulus/__init__.py parse_metadata_version,
cmd_util.py check_version)

Strings are handled at the `List Char` level.  `natOfDigits` is the value of
a decimal digit string; `tupleLt` is Python's lexicographic `<` on integer
tuples (a proper prefix is smaller). -/

def natOfDigits (ds : List Char) : Nat :=
  ds.foldl (fun n c => n * 10 + (c.toNat - 48)) 0

def tupleLt : List Nat → List Nat → Bool
  | [], [] => false
  | [], _ :: _ => true
  | _ :: _, [] => false
  | a :: as, b :: bs => a < b || (a = b && tupleLt as bs)

def splitDot : List Char → List Char → List (List Char)
  | [], acc => [acc.reverse]
  | '.' :: rest, acc => acc.reverse :: splitDot rest []
  | c :: rest, acc => splitDot rest (c :: acc)

/-- The snapshot format understood by the cumulus module (`FORMAT_VERSION = (0, 11)`). -/
def FORMAT_VERSION : List Nat := [0, 11]

/-- cmd_util.py: `FORMAT_VERSION = min(cumulus.FORMAT_VERSION, (0, 11))` -/
def cmdUtilFormatVersion : List Nat :=
  if tupleLt [0, 11] FORMAT_VERSION then [0, 11] else FORMAT_VERSION

/-- `parse_metadata_version`: regex `^(?:Cumulus|LBS) Snapshot v(\d+(\.\d+)*)$`;
returns the numeric tuple, or the empty tuple when the regex fails.  `\d` is
modelled as an ASCII digit. -/
def parse_metadata_version (l : List Char) : List Nat :=
  let rest : Option (List Char) :=
    if (("Cumulus Snapshot v".data)).isPrefixOf l then some (l.drop 18)
    else if (("LBS Snapshot v".data)).isPrefixOf l then some (l.drop 14)
    else none
  match rest with
  | none => []
  | some r =>
    let parts := splitDot r []
    if parts.all (fun p => p ≠ [] && p.all Char.isDigit) then
      parts.map natOfDigits
    else []

/-- cmd_util.py `check_version`: raises (`UnsupportedVersion`) iff the parsed
tuple compares greater than the compiled-in format version. -/
def check_version_rejects (l : List Char) : Bool :=
  tupleLt cmdUtilFormatVersion (parse_metadata_version l)

/-! ## SearchPath.list (cumulus/__init__.py, SearchPath.list)

The backend is a function from a directory name to `none` (the backend
raised `NotFound`) or the list of file basenames it yields.  `dirs` is the
set of unique directory prefixes (`self.directories()`), in iteration
order.  The matcher regex is abstracted as a boolean predicate.  The
generator is modelled as the whole traversal: either the list of produced
pairs' pathnames, or the final `NotFoundError`. -/

def joinPath (d f : List Char) : List Char := if d = [] then f else d ++ '/' :: f

def searchPathListStep (bl : List Char → Option (List (List Char)))
    (mtch : List Char → Bool) (st : Bool × List (List Char)) (d : List Char) :
    Bool × List (List Char) :=
  match bl d with
  | none => st
  | some fs => (st.1 || !fs.isEmpty, st.2 ++ (fs.filter mtch).map (joinPath d))

def searchPathList (bl : List Char → Option (List (List Char)))
    (mtch : List Char → Bool) (dirs : List (List Char)) :
    Except Unit (List (List Char)) :=
  let st := dirs.foldl (searchPathListStep bl mtch) (false, [])
  if st.1 then .ok st.2 else .error ()

/-! ## URI encoding (cumulus/__init__.py, uri_encode / uri_decode) -/

/-- The characters `uri_encode` passes through literally:
`c > '+' and c < '\x7f' and c != '@'`. -/
def uriPassLiteral (c : Char) : Bool :=
  decide ('+' < c) && decide (c < Char.ofNat 0x7f) && decide (c ≠ '@')

/-- Lowercase hex digit for a value below 16, as produced by `"%02x"`. -/
def hexDigitChar (n : Nat) : Char :=
  if n < 10 then Char.ofNat (48 + n) else Char.ofNat (87 + n)

def hexDigitsAux : Nat → Nat → List Char
  | 0, _ => []
  | fuel + 1, n => if n = 0 then [] else hexDigitsAux fuel (n / 16) ++ [hexDigitChar (n % 16)]

/-- `"%02x" % n`: lowercase hex digits of `n`, zero-padded to width at least 2. -/
def hexStrMin2 (n : Nat) : List Char :=
  let ds := if n = 0 then ['0'] else hexDigitsAux n n
  List.replicate (2 - ds.length) '0' ++ ds

/-- `hex_encode` inside `uri_encode`. -/
def hex_encode (c : Char) : List Char :=
  if uriPassLiteral c then [c] else '%' :: hexStrMin2 c.toNat

/-- `uri_encode`: `''.join(hex_encode(c) for c in s)`. -/
def uri_encode (s : List Char) : List Char := (s.map hex_encode).flatten

def isLowerHexDigit (c : Char) : Bool :=
  c.isDigit || (decide ('a' ≤ c) && decide (c ≤ 'f'))

def hexCharVal (c : Char) : Nat :=
  if c.isDigit then c.toNat - 48 else c.toNat - 87

/-- `uri_decode`: `re.sub(r"%([0-9a-f]{2})", hex_decode, s)` — scan left to
right; a `%` followed by two lowercase hex digits is replaced by the
character with that code point, anything else is copied unchanged.  The
scan consumes at least one character per step, so running it with
`s.length` steps of fuel is exact. -/
def uri_decode_aux : Nat → List Char → List Char
  | 0, _ => []
  | _ + 1, [] => []
  | fuel + 1, c :: rest =>
    if c = '%' then
      match rest with
      | a :: b :: rest2 =>
        if isLowerHexDigit a && isLowerHexDigit b then
          Char.ofNat (16 * hexCharVal a + hexCharVal b) :: uri_decode_aux fuel rest2
        else c :: uri_decode_aux fuel rest
      | _ => c :: uri_decode_aux fuel rest
    else c :: uri_decode_aux fuel rest

def uri_decode (s : List Char) : List Char := uri_decode_aux s.length s

/-! ## Metadata log follower (cumulus/__init__.py, read_metadata and
MetadataItem.data)

`MAX_RECURSION_DEPTH = 3`.  The object store is a function from reference
strings to object contents (`none` = object not found).  `to_lines` models
`codecs.iterdecode(data.splitlines(True), ...)`: split into lines keeping
the `'\n'` markers (only `'\n'` is modelled as a terminator).  The stack
machine of the source is rendered as structural recursion: `followAt store b
ref` fetches `ref` and processes its lines, where `b` is the number of
additional `follow_ref` pushes still allowed (the source raises
`OverflowError`, spec name `RecursionTooDeep`, when `len(stack) >=
MAX_RECURSION_DEPTH` at a push).  A generator is modelled as the whole
traversal result: the stream of yielded lines, or the error that terminated
it. -/

def MAX_RECURSION_DEPTH : Nat := 3

inductive MetaErr where
  | recursionTooDeep
  | notFound
deriving DecidableEq

def to_lines_aux : List Char → List Char → List (List Char)
  | [], acc => if acc = [] then [] else [acc.reverse]
  | '\n' :: rest, acc => (acc.reverse ++ ['\n']) :: to_lines_aux rest []
  | c :: rest, acc => to_lines_aux rest (c :: acc)

def to_lines (s : List Char) : List (List Char) := to_lines_aux s []

/-- A metadata line is an indirect reference iff it is nonempty and starts
with `'@'`; the reference string is the rest of the line (the source's
`ref.strip()` result is discarded, so a trailing newline stays in place). -/
def isIndirect (l : List Char) : Bool :=
  match l with
  | '@' :: _ => true
  | _ => false

def processItems (follow : List Char → Except MetaErr (List (List Char))) :
    List (List Char) → Except MetaErr (List (List Char))
  | [] => .ok []
  | l :: rest =>
    if isIndirect l then
      match follow (l.drop 1) with
      | .error e => .error e
      | .ok inner =>
        match processItems follow rest with
        | .error e => .error e
        | .ok outer => .ok (inner ++ outer)
    else
      match processItems follow rest with
      | .error e => .error e
      | .ok outer => .ok (l :: outer)

def followAt (store : List Char → Option (List Char)) :
    Nat → List Char → Except MetaErr (List (List Char))
  | 0, _ => .error .recursionTooDeep
  | b + 1, ref =>
    match store ref with
    | none => .error .notFound
    | some content => processItems (followAt store b) (to_lines content)

/-- `read_metadata(object_store, root)`: `follow_ref(root)` happens with an
empty stack, so the root's own lines run with `MAX_RECURSION_DEPTH - 1`
further pushes available. -/
def read_metadata (store : List Char → Option (List Char)) (root : List Char) :
    Except MetaErr (List (List Char)) :=
  followAt store MAX_RECURSION_DEPTH root

/-- `str.split()`: split on runs of whitespace, no empty tokens. -/
def splitWS_aux : List Char → List Char → List (List Char)
  | [], acc => if acc = [] then [] else [acc.reverse]
  | c :: rest, acc =>
    if c.isWhitespace then
      if acc = [] then splitWS_aux rest [] else acc.reverse :: splitWS_aux rest []
    else splitWS_aux rest (c :: acc)

def splitWS (s : List Char) : List (List Char) := splitWS_aux s []

def followTokensAt (store : List Char → Option (List Char)) :
    Nat → List Char → Except MetaErr (List (List Char))
  | 0, _ => .error .recursionTooDeep
  | b + 1, ref =>
    match store ref with
    | none => .error .notFound
    | some content => processItems (followTokensAt store b) (splitWS content)

/-- `MetadataItem.data()`: the `data` field's tokens start on the stack
without a `follow_ref` call, so indirect references inside it may push
`MAX_RECURSION_DEPTH - 1` times. -/
def metadata_item_data (store : List Char → Option (List Char))
    (dataField : List Char) : Except MetaErr (List (List Char)) :=
  processItems (followTokensAt store (MAX_RECURSION_DEPTH - 1)) (splitWS dataField)

/-! ## Segment cleaning list (cumulus/__init__.py,
LocalDatabase.get_segment_cleaning_list)

A row of the `segment_info` query
`select segmentid, used, size, mtime, julianday('now') - mtime as age ...
 where expire_time is null`
is modelled with its nullable columns as `Option`; float arithmetic is
idealised as `ℚ`.  Python's stable `sort(..., key=cleaning_benefit,
reverse=True)` is modelled as a stable insertion sort: a new element is
placed after all existing elements of greater-or-equal benefit. -/

structure SegmentInfoRow where
  segmentid : Nat
  used : Option ℚ
  size : ℚ
  mtime : ℚ
  age : Option ℚ
  expire_time : Option Nat
deriving DecidableEq

structure SegmentInfo where
  id : Nat
  used_bytes : ℚ
  size_bytes : ℚ
  age_days : ℚ
  cleaning_benefit : ℚ
deriving DecidableEq

/-- Build one `SegmentInfo` from a row: missing `age_days` or `used_bytes`
is treated as 0.0, then
`benefit = (1 - u) * (age_days + age_boost) / (u + 0.1)` with
`u = used_bytes / size_bytes`. -/
def mkSegmentInfo (age_boost : ℚ) (r : SegmentInfoRow) : SegmentInfo :=
  let age_days := r.age.getD 0
  let used_bytes := r.used.getD 0
  let u := used_bytes / r.size
  { id := r.segmentid, used_bytes := used_bytes, size_bytes := r.size,
    age_days := age_days,
    cleaning_benefit := (1 - u) * (age_days + age_boost) / (u + 1/10) }

def insertByBenefit (x : SegmentInfo) : List SegmentInfo → List SegmentInfo
  | [] => [x]
  | y :: l =>
    if x.cleaning_benefit ≤ y.cleaning_benefit then y :: insertByBenefit x l
    else x :: y :: l

def sortByBenefit (l : List SegmentInfo) : List SegmentInfo :=
  l.foldl (fun acc x => insertByBenefit x acc) []

def get_segment_cleaning_list (age_boost : ℚ) (rows : List SegmentInfoRow) :
    List SegmentInfo :=
  sortByBenefit ((rows.filter (fun r => r.expire_time = none)).map
    (mkSegmentInfo age_boost))

/-- Non-increasing cleaning benefit (the claimed sort order). -/
def benefitGE (a b : SegmentInfo) : Prop := b.cleaning_benefit ≤ a.cleaning_benefit

/-! ## Expired-object age balancing (cumulus/__init__.py,
LocalDatabase.balance_expired_objects)

`block_index` rows are modelled with the columns the function touches;
`segments` rows with `(segmentid, size)`.  Timestamps are julian days
(`ℚ`); object sizes are integers.  `sqliteRound` is SQLite's `round()`
(half away from zero) restricted to one output integer.  The single
irrational quantity, `target_buckets = 2 * (total_bytes /
segment_size_estimate) ** 0.4`, lives in `ℝ`; since every bucket size is an
integer, the source's comparisons with `target_size` are equivalent to
comparisons with `⌈target_size⌉`, which is what the executable cutoff loop
receives. -/

structure BlockRow where
  blockid : Nat
  segmentid : Nat
  size : Int
  timestamp : ℚ
  expired : Option Int
deriving DecidableEq

structure SegRow where
  segmentid : Nat
  size : Int
deriving DecidableEq

/-- SQLite `round(q)` as an integer: round half away from zero. -/
def sqliteRound (q : ℚ) : Int :=
  if 0 ≤ q then ⌊q + 1/2⌋ else -⌊-q + 1/2⌋

/-- Step 1: `update block_index set expired = 0 where expired is not null`. -/
def resetExpired (rows : List BlockRow) : List BlockRow :=
  rows.map (fun r => if r.expired ≠ none then { r with expired := some 0 } else r)

/-- `select avg(size) from segments where segmentid in (select distinct
segmentid from block_index where expired is not null)`; the absent average
(no such segment) is modelled as 0, which the caller's falsiness test
(`if not segment_size_estimate: return`) treats the same way. -/
def segmentSizeEstimate (segs : List SegRow) (rows : List BlockRow) : ℚ :=
  let ids := (rows.filter (fun r => r.expired ≠ none)).map (fun r => r.segmentid)
  let relevant := segs.filter (fun s => ids.contains s.segmentid)
  if relevant.length = 0 then 0
  else ((relevant.map (fun s => s.size)).sum : ℚ) / (relevant.length : ℚ)

/-- `update block_index set timestamp = now where timestamp > now and
expired is not null`. -/
def clampTimestamps (now : ℚ) (rows : List BlockRow) : List BlockRow :=
  rows.map (fun r =>
    if r.timestamp > now ∧ r.expired ≠ none then { r with timestamp := now } else r)

def insortInt (a : Int) : List Int → List Int
  | [] => [a]
  | b :: l => if a ≤ b then a :: b :: l else b :: insortInt a l

def memInt (a : Int) : List Int → Bool
  | [] => false
  | b :: rest => a = b || memInt a rest

/-- Distinct values (SQL `group by` keys); order is irrelevant because the
result is sorted afterwards. -/
def dedupInts : List Int → List Int
  | [] => []
  | a :: rest =>
    let d := dedupInts rest
    if memInt a d then d else a :: d

def sortInts (l : List Int) : List Int := l.foldr insortInt []

/-- `select round(now - timestamp) as age, count(*), sum(size) from
block_index where expired = 0 group by age order by age`. -/
def ageDistribution (now : ℚ) (rows : List BlockRow) : List (Int × Int × Int) :=
  let exp0 := rows.filter (fun r => r.expired = some 0)
  let ages := sortInts (dedupInts (exp0.map (fun r => sqliteRound (now - r.timestamp))))
  ages.map (fun a =>
    let grp := exp0.filter (fun r => sqliteRound (now - r.timestamp) = a)
    (a, (grp.length : Int), (grp.map (fun r => r.size)).sum))

def MIN_AGE : Int := 4

/-- `target_buckets = 2 * (total_bytes / segment_size_estimate) ** 0.4`
(float power idealised as `Real.rpow`). -/
noncomputable def target_buckets (total_bytes : Int) (est : ℚ) : ℝ :=
  2 * (((total_bytes : ℝ) / (est : ℝ)) ^ ((0.4 : ℝ)))

/-- `target_size = max(2 * segment_size_estimate, total_bytes / target_buckets)`. -/
noncomputable def target_size (total_bytes : Int) (est : ℚ) : ℝ :=
  max (2 * (est : ℝ)) ((total_bytes : ℝ) / target_buckets total_bytes est)

/-- Integer bucket sizes make `bucket_size >= target_size` and
`bucket_size < target_size` equivalent to the same comparisons against
`⌈target_size⌉`. -/
noncomputable def targetSizeCeil (total_bytes : Int) (est : ℚ) : Int :=
  ⌈target_size total_bytes est⌉

structure CutoffState where
  cutoffs : List Int
  bucket_size : Int
  min_age_bucket : Bool
deriving DecidableEq

/-- One iteration of `for (age, items, size) in distribution` (the
distribution arrives already reversed, oldest first). -/
def cutoffStep (tceil : Int) (st : CutoffState) (row : Int × Int × Int) :
    CutoffState :=
  let age := row.1
  let size := row.2.2
  let st1 :=
    if st.bucket_size ≥ tceil ∨ (age < MIN_AGE ∧ st.min_age_bucket = false) then
      { st with
        cutoffs :=
          (if st.bucket_size < tceil ∧ st.cutoffs ≠ [] then st.cutoffs.dropLast
           else st.cutoffs) ++ [age],
        bucket_size := 0 }
    else st
  { st1 with bucket_size := st1.bucket_size + size,
             min_age_bucket := st1.min_age_bucket || decide (age < MIN_AGE) }

/-- The full cutoff selection: walk the distribution oldest-first, close the
trailing bucket, append the sentinel, and reverse (`cutoffs.reverse()`). -/
def computeCutoffs (tceil : Int) (min_size : ℚ) (dist : List (Int × Int × Int)) :
    List Int :=
  let st := dist.reverse.foldl (cutoffStep tceil) ⟨[], 0, false⟩
  let cutoffs :=
    if (st.bucket_size : ℚ) ≥ min_size ∨ st.min_age_bucket = false then
      st.cutoffs ++ [-1]
    else st.cutoffs
  ((cutoffs ++ [-1])).reverse

/-- `update block_index set expired = i where round(now - timestamp) > cutoffs[i]
and expired is not null`, for one `i`. -/
def applyCutoff (now : ℚ) (i : Int) (c : Int) (rows : List BlockRow) : List BlockRow :=
  rows.map (fun r =>
    if r.expired ≠ none ∧ sqliteRound (now - r.timestamp) > c then
      { r with expired := some i }
    else r)

/-- `for i in range(len(cutoffs)): ...` in order. -/
def assignBuckets (now : ℚ) : Nat → List Int → List BlockRow → List BlockRow
  | _, [], rows => rows
  | i, c :: cs, rows => assignBuckets now (i + 1) cs (applyCutoff now (i : Int) c rows)

/-- `balance_expired_objects`, returning the updated `block_index` rows and
the chosen (already reversed) cutoff list — empty when the function returned
early because no expired segment average was available. -/
noncomputable def balance_expired_objects (now : ℚ) (segs : List SegRow)
    (rows : List BlockRow) : List BlockRow × List Int :=
  let rows1 := resetExpired rows
  let est := segmentSizeEstimate segs rows1
  if est = 0 then (rows1, [])
  else
    let rows2 := clampTimestamps now rows1
    let dist := ageDistribution now rows2
    let total_bytes := (dist.map (fun i => i.2.2)).sum
    let min_size : ℚ := 3/2 * est
    let cutoffs := computeCutoffs (targetSizeCeil total_bytes est) min_size dist
    (assignBuckets now 0 cutoffs rows2, cutoffs)

/-! ## Reference parsing (cumulus/__init__.py, CumulusStore.parse_ref)

The two anchored regexes

  `^zero\[(\d+)\]$`
  `^([-0-9a-f]+)\/([0-9a-f]+)(\(\S+\))?(\[(=?(\d+)|(\d+)\+(\d+))\])?$`

are hand-compiled.  The character classes exclude the delimiters that
follow them, so the greedy runs are the maximal `takeWhile` runs; inside a
checksum group `\S+` is greedy with backtracking, rendered as a search for
the longest body whose closing `)` leaves a residue matching the optional
slice group (`searchChecksum` counts down).  `\d` and `\S` are modelled as
ASCII digit / non-whitespace.  An unmatched reference makes `parse_ref`
return `None` (spec error kind `BadReference`), modelled as `none`. -/

def isRefBodyChar (c : Char) : Bool :=
  decide (c = '-') || c.isDigit || (decide ('a' ≤ c) && decide (c ≤ 'f'))

structure ParsedRef where
  segment : List Char
  object : Option (List Char)
  checksum : Option (List Char)
  sliceSpec : Option (Nat × Nat × Bool)
deriving DecidableEq

/-- The slice alternation `=?(\d+)|(\d+)\+(\d+)`: a body matching the first
branch sets group 6 and yields the size-assertion slice `(0, N, True)`; the
second branch yields `(S, N, False)`. -/
def parseSliceBody (b : List Char) : Option (Nat × Nat × Bool) :=
  if b ≠ [] && b.all Char.isDigit then some (0, natOfDigits b, true)
  else
    match b with
    | '=' :: ds =>
      if ds ≠ [] && ds.all Char.isDigit then some (0, natOfDigits ds, true) else none
    | _ =>
      match b.drop ((b.takeWhile Char.isDigit).length) with
      | '+' :: d2 =>
        if b.takeWhile Char.isDigit ≠ [] && d2 ≠ [] && d2.all Char.isDigit then
          some (natOfDigits (b.takeWhile Char.isDigit), natOfDigits d2, false)
        else none
      | _ => none

/-- A whole trailing slice group `\[...\]$`. -/
def parseSliceGroup (r : List Char) : Option (Nat × Nat × Bool) :=
  match r with
  | '[' :: rest =>
    if rest.getLast? = some ']' then parseSliceBody rest.dropLast else none
  | _ => none

/-- What may follow a checksum group: nothing, or a full slice group. -/
def parseTailSlice (d : List Char) : Option (Option (Nat × Nat × Bool)) :=
  if d = [] then some none
  else
    match parseSliceGroup d with
    | some sl => some (some sl)
    | none => none

/-- Greedy `\S+\)` with backtracking: `rest` is the text after the opening
`(`; try checksum bodies of length `k+1, k, ..., 1`. -/
def searchChecksum (rest : List Char) : Nat → Option (List Char × Option (Nat × Nat × Bool))
  | 0 => none
  | k + 1 =>
    if rest.get? (k + 1) = some ')' then
      match parseTailSlice (rest.drop (k + 2)) with
      | some sl => some (rest.take (k + 1), sl)
      | none => searchChecksum rest k
    else searchChecksum rest k

/-- `checksum.lstrip("(").rstrip(")")`. -/
def stripParens (g : List Char) : List Char :=
  ((g.dropWhile (fun c => c = '(')).reverse.dropWhile (fun c => c = ')')).reverse

/-- The first regex: `^zero\[(\d+)\]$`, result
`("zero", None, None, (0, N, False))`. -/
def zeroRefParse (l : List Char) : Option ParsedRef :=
  if l.take 5 = "zero[".data then
    if (l.drop 5).getLast? = some ']' ∧ (l.drop 5).dropLast ≠ []
        ∧ ((l.drop 5).dropLast).all Char.isDigit then
      some ⟨"zero".data, none, none, some (0, natOfDigits ((l.drop 5).dropLast), false)⟩
    else none
  else none

def parse_ref (l : List Char) : Option ParsedRef :=
  match zeroRefParse l with
  | some r => some r
  | none =>
    let A := l.takeWhile isRefBodyChar
    match l.drop A.length with
    | '/' :: r1b =>
      if A = [] then none
      else
        let B := r1b.takeWhile isLowerHexDigit
        if B = [] then none
        else
          match r1b.drop B.length with
          | [] => some ⟨A, some B, none, none⟩
          | '(' :: restc =>
            let runlen := (restc.takeWhile (fun c => !c.isWhitespace)).length
            match searchChecksum restc runlen with
            | some (M, sl) =>
              some ⟨A, some B, some (stripParens ('(' :: (M ++ [')']))), sl⟩
            | none => none
          | '[' :: rest2 =>
            match parseSliceGroup ('[' :: rest2) with
            | some sl => some ⟨A, some B, none, some sl⟩
            | none => none
          | _ => none
    | _ => none

/-! ### The reference grammar, stated declaratively

`wellFormedRefImpl` is the language of the implemented regex, written as a
search over split points rather than as a matcher.  `wellFormedRefSpec`
differs in one production only: the spec (§4.4) requires the checksum field
to have the shape `<algo> "=" <hex>`, which is checked here in the most
liberal reading (some `=` with a nonempty lowercase-hex remainder after
it); the implementation accepts any nonempty whitespace-free body. -/

def isSliceBodyForm (b : List Char) : Bool :=
  (b ≠ [] && b.all Char.isDigit)
  || (b.head? = some '=' && b.tail ≠ [] && (b.tail).all Char.isDigit)
  || (List.range b.length).any (fun i =>
        b.get? i = some '+' && b.take i ≠ [] && (b.take i).all Char.isDigit
        && b.drop (i + 1) ≠ [] && (b.drop (i + 1)).all Char.isDigit)

def isSliceGroupForm (d : List Char) : Bool :=
  d.head? = some '[' && (d.tail).getLast? = some ']'
  && isSliceBodyForm ((d.tail).dropLast)

/-- Implemented checksum body: `\S+`. -/
def isChecksumBodyImpl (M : List Char) : Bool :=
  M ≠ [] && M.all (fun c => !c.isWhitespace)

/-- Spec checksum body: `<algo> "=" <hex>` (liberal reading). -/
def isChecksumBodySpec (M : List Char) : Bool :=
  (List.range M.length).any (fun i =>
    M.get? i = some '=' && M.drop (i + 1) ≠ []
    && (M.drop (i + 1)).all isLowerHexDigit)

/-- Optional checksum group followed by an optional slice group. -/
def isTrailerForm (ckOk : List Char → Bool) (r : List Char) : Bool :=
  r = []
  || isSliceGroupForm r
  || (r.head? = some '(' && (List.range (r.tail.length)).any (fun j =>
        (r.tail).get? j = some ')' && ckOk ((r.tail).take j)
        && ((r.tail).drop (j + 1) = [] || isSliceGroupForm ((r.tail).drop (j + 1)))))

def isZeroRefForm (l : List Char) : Bool :=
  l.take 5 = "zero[".data && (l.drop 5).getLast? = some ']'
  && (l.drop 5).dropLast ≠ [] && ((l.drop 5).dropLast).all Char.isDigit

def wellFormedRefWith (ckOk : List Char → Bool) (l : List Char) : Bool :=
  isZeroRefForm l
  || (List.range l.length).any (fun i =>
       l.get? i = some '/' && l.take i ≠ [] && (l.take i).all isRefBodyChar
       && (List.range ((l.drop (i + 1)).length + 1)).any (fun j =>
            (l.drop (i + 1)).take j ≠ []
            && ((l.drop (i + 1)).take j).all isLowerHexDigit
            && isTrailerForm ckOk ((l.drop (i + 1)).drop j)))

/-- The language of the implemented reference regex. -/
def wellFormedRefImpl (l : List Char) : Bool := wellFormedRefWith isChecksumBodyImpl l

/-- The reference grammar as written in the spec (§4.4). -/
def wellFormedRefSpec (l : List Char) : Bool := wellFormedRefWith isChecksumBodySpec l

/-! ## Concrete scenarios used by the theorems -/

/-- Whether `backend.list(d)` yields at least one file (this, not mere
success of the listing, is what sets the `success` flag in
`SearchPath.list`). -/
def dirYieldsFiles (bl : List Char → Option (List (List Char))) (d : List Char) : Bool :=
  match bl d with
  | none => false
  | some fs => !fs.isEmpty

/-- Metadata store with a depth-3 indirection chain root → X → Y.  The
source drops the result of `ref.strip()`, so the reference taken from the
line `"@X\n"` is `"X\n"`, newline included. -/
def mdStore3 : List Char → Option (List Char) := fun r =>
  if r = "root".data then some ("a\n@X\nd".data)
  else if r = "X\n".data then some ("b\n@Y".data)
  else if r = "Y".data then some ("c".data)
  else none

/-- Metadata store with a depth-4 indirection chain root → X → Y → Z. -/
def mdStore4 : List Char → Option (List Char) := fun r =>
  if r = "root".data then some ("@X".data)
  else if r = "X".data then some ("@Y".data)
  else if r = "Y".data then some ("@Z".data)
  else if r = "Z".data then some ("line".data)
  else none

/-- Object store for `MetadataItem.data`: tokens instead of lines. -/
def tokStore3 : List Char → Option (List Char) := fun r =>
  if r = "X".data then some ("t2 @Y".data)
  else if r = "Y".data then some ("t3".data)
  else none

def tokStore4 : List Char → Option (List Char) := fun r =>
  if r = "X".data then some ("@Y".data)
  else if r = "Y".data then some ("@Z".data)
  else if r = "Z".data then some ("t".data)
  else none

/-- Block rows for the C2 scenario: expired objects of ages 1, 2 and 10
days with 100, 100 and 1000 bytes (the spec's distribution), plus one
unexpired row that must stay untouched.  `now = 0`. -/
def c2rows : List BlockRow :=
  [⟨1, 1, 100, -1, some 7⟩, ⟨2, 1, 100, -2, some 0⟩,
   ⟨3, 1, 1000, -10, some 3⟩, ⟨4, 2, 55, -5, none⟩]

/-- Segment 1 (holding all expired blocks) has size 500, giving
`segment_size_estimate = 500`. -/
def c2segs : List SegRow := [⟨1, 500⟩, ⟨2, 999⟩]

/-- `c2rows` after step 1 (`resetExpired`). -/
def c2rowsReset : List BlockRow :=
  [⟨1, 1, 100, -1, some 0⟩, ⟨2, 1, 100, -2, some 0⟩,
   ⟨3, 1, 1000, -10, some 0⟩, ⟨4, 2, 55, -5, none⟩]

/-- C3 counterexample scenario: one expired 100-byte object of age 10 in a
1000-byte segment, so `total_bytes = 100` and `segment_size_estimate =
1000`. -/
def c3rows : List BlockRow := [⟨1, 1, 100, -10, some 0⟩]

def c3segs : List SegRow := [⟨1, 1000⟩]

/-- Cleaning-benefit scenario of the spec: `(used=250, size=1000, age=10)`
and `(used=750, size=1000, age=10)`. -/
def c8rows : List SegmentInfoRow :=
  [⟨1, some 250, 1000, 0, some 10, none⟩, ⟨2, some 750, 1000, 0, some 10, none⟩]

/-! # Theorems -/

theorem filter_filter_self {α : Type} (p : α → Bool) (l : List α) :
    (l.filter p).filter p = l.filter p := by
  refine List.filter_eq_self.mpr ?_
  intro a ha
  exact List.of_mem_filter ha

/-- C9: `garbage_collect` is idempotent: a second run directly after a
first deletes no rows and leaves the database state unchanged. -/
theorem C9_garbage_collect_idempotent (db : GCDB) :
    garbage_collect (garbage_collect db) = garbage_collect db := by
  simp only [garbage_collect]
  have hsu := filter_filter_self (fun r : Nat × Nat => db.snapshots.contains r.1)
    db.segment_utilization
  refine GCDB.mk.injEq _ _ _ _ _ _ _ _ _ _ ▸ ?_
  refine ⟨rfl, hsu, ?_, ?_, ?_⟩
  · rw [hsu]
    exact filter_filter_self _ _
  · rw [hsu, filter_filter_self]
    exact filter_filter_self _ _
  · rw [hsu, filter_filter_self, filter_filter_self]
    exact filter_filter_self _ _

/-- C5: the version gate rejects exactly when the parsed tuple compares
greater than `FORMAT_VERSION = (0, 11)`; `Cumulus Snapshot v0.11` is
accepted and `Cumulus Snapshot v0.12` rejected. -/
theorem C5_version_gate :
    (∀ l : List Char,
      check_version_rejects l = tupleLt FORMAT_VERSION (parse_metadata_version l))
    ∧ check_version_rejects ("Cumulus Snapshot v0.11".data) = false
    ∧ check_version_rejects ("Cumulus Snapshot v0.12".data) = true :=
  ⟨fun _ => rfl, by decide, by decide⟩

/-- C4: the metadata log follower stops at indirection depth 3: a depth-3
chain (root → X → Y) is traversed completely in depth-first order, while a
depth-4 chain (root containing `@X`, X containing `@Y`, Y containing `@Z`)
fails with `RecursionTooDeep` upon reaching `@Z`; `MetadataItem.data` over
tokens behaves likewise. -/
theorem C4_recursion_depth :
    read_metadata mdStore3 ("root".data)
      = .ok ["a\n".data, "b\n".data, "c".data, "d".data]
    ∧ read_metadata mdStore4 ("root".data) = .error .recursionTooDeep
    ∧ metadata_item_data tokStore3 ("t1 @X t4".data)
      = .ok ["t1".data, "t2".data, "t3".data, "t4".data]
    ∧ metadata_item_data tokStore4 ("@X".data) = .error .recursionTooDeep :=
  ⟨rfl, rfl, rfl, rfl⟩

theorem searchPathList_fold_fst (bl : List Char → Option (List (List Char)))
    (mtch : List Char → Bool) (dirs : List (List Char)) (s : Bool)
    (out : List (List Char)) :
    (dirs.foldl (searchPathListStep bl mtch) (s, out)).1
      = (s || dirs.any (dirYieldsFiles bl)) := by
  induction dirs generalizing s out with
  | nil => simp
  | cons d ds ih =>
    rw [List.foldl_cons, List.any_cons]
    cases h : bl d with
    | none =>
      have hstep : searchPathListStep bl mtch (s, out) d = (s, out) := by
        simp [searchPathListStep, h]
      have hy : dirYieldsFiles bl d = false := by simp [dirYieldsFiles, h]
      rw [hstep, ih, hy, Bool.false_or]
    | some fs =>
      have hstep : searchPathListStep bl mtch (s, out) d
          = (s || !fs.isEmpty, out ++ (fs.filter mtch).map (joinPath d)) := by
        simp [searchPathListStep, h]
      have hy : dirYieldsFiles bl d = !fs.isEmpty := by simp [dirYieldsFiles, h]
      rw [hstep, ih, hy, Bool.or_assoc]

/-- C7 (counterexample): with a single directory whose listing succeeds but
yields no files, `SearchPath.list` still raises `NotFound`, so "`NotFound`
exactly when every underlying list raised `NotFound`" fails. -/
theorem C7_counterexample :
    ¬ ((searchPathList (fun _ => some []) (fun _ => true) [("d".data)] = .error ())
        ↔ ∀ d ∈ [("d".data)],
            (fun (_ : List Char) => some ([] : List (List Char))) d = none) := by
  intro h
  have h2 := h.mp rfl ("d".data) (List.mem_singleton.mpr rfl)
  simp at h2

/-- C7 (amended): `SearchPath.list` raises `NotFound` exactly when no
directory listing yields any file: every underlying `list(dir)` either
raised `NotFound` or returned an empty listing.  A successful but empty (or
unmatched) listing does not prevent the `NotFound`. -/
theorem C7_amended (bl : List Char → Option (List (List Char)))
    (mtch : List Char → Bool) (dirs : List (List Char)) :
    searchPathList bl mtch dirs = .error ()
      ↔ ∀ d ∈ dirs, bl d = none ∨ bl d = some [] := by
  simp only [searchPathList]
  rw [searchPathList_fold_fst]
  constructor
  · intro h d hd
    by_cases hyld : (false || dirs.any (dirYieldsFiles bl)) = true
    · rw [if_pos hyld] at h
      exact absurd h (by simp)
    · simp only [Bool.false_or, List.any_eq_true, not_exists, not_and] at hyld
      have := hyld d hd
      unfold dirYieldsFiles at this
      cases hbl : bl d with
      | none => exact Or.inl rfl
      | some fs =>
        rw [hbl] at this
        simp at this
        exact Or.inr (by rw [this])
  · intro h
    have hany : dirs.any (dirYieldsFiles bl) = false := by
      rw [List.any_eq_false]
      intro d hd
      rcases h d hd with h1 | h1 <;> simp [dirYieldsFiles, h1]
    rw [Bool.false_or, hany]
    simp

theorem hexStrMin2_spec : ∀ n : Nat, n < 256 →
    hexStrMin2 n = [hexDigitChar (n / 16), hexDigitChar (n % 16)]
    ∧ isLowerHexDigit (hexDigitChar (n / 16)) = true
    ∧ isLowerHexDigit (hexDigitChar (n % 16)) = true
    ∧ 16 * hexCharVal (hexDigitChar (n / 16)) + hexCharVal (hexDigitChar (n % 16)) = n := by
  decide

theorem uri_decode_aux_cons_ne (f : Nat) (c : Char) (l : List Char) (h : ¬ c = '%') :
    uri_decode_aux (f + 1) (c :: l) = c :: uri_decode_aux f l := by
  simp only [uri_decode_aux]
  rw [if_neg h]

theorem uri_decode_aux_escape (f : Nat) (a b : Char) (l : List Char)
    (ha : isLowerHexDigit a = true) (hb : isLowerHexDigit b = true) :
    uri_decode_aux (f + 1) ('%' :: a :: b :: l)
      = Char.ofNat (16 * hexCharVal a + hexCharVal b) :: uri_decode_aux f l := by
  simp only [uri_decode_aux]
  simp [ha, hb]

theorem uri_roundtrip_aux (s : List Char) (hlt : ∀ c ∈ s, c.toNat < 256) :
    ∀ fuel, (uri_encode s).length ≤ fuel → uri_decode_aux fuel (uri_encode s) = s := by
  induction s with
  | nil => intro fuel _; cases fuel <;> rfl
  | cons c s ih =>
    intro fuel hfuel
    have hc : c.toNat < 256 := hlt c (List.mem_cons_self _ _)
    have hs : ∀ x ∈ s, x.toNat < 256 := fun x hx => hlt x (List.mem_cons_of_mem _ hx)
    have henc : uri_encode (c :: s) = hex_encode c ++ uri_encode s := by
      simp [uri_encode]
    rw [henc] at hfuel ⊢
    by_cases hp : uriPassLiteral c = true
    · have he : hex_encode c = [c] := by simp [hex_encode, hp]
      rw [he] at hfuel ⊢
      cases fuel with
      | zero => simp at hfuel
      | succ f =>
        have hcne : ¬ c = '%' := by
          intro hceq
          rw [hceq] at hp
          exact absurd hp (by decide)
        rw [List.singleton_append, uri_decode_aux_cons_ne f c _ hcne,
          ih hs f (by simpa using hfuel)]
    · have hp' : uriPassLiteral c = false := by simpa using hp
      obtain ⟨hms, hh1, hh2, hval⟩ := hexStrMin2_spec c.toNat hc
      have he : hex_encode c
          = '%' :: hexDigitChar (c.toNat / 16) :: hexDigitChar (c.toNat % 16) :: [] := by
        simp [hex_encode, hp', hms]
      rw [he] at hfuel ⊢
      cases fuel with
      | zero => simp at hfuel
      | succ f =>
        rw [List.cons_append, List.cons_append, List.cons_append, List.nil_append,
          uri_decode_aux_escape f _ _ _ hh1 hh2, hval, Char.ofNat_toNat,
          ih hs f (by simp at hfuel ⊢; omega)]

/-- C10: for strings over code points below 256, `uri_decode ∘ uri_encode`
is the identity; `uri_encode` passes a character literally exactly when it
is strictly greater than `'+'`, strictly below `0x7f` and not `'@'`, and
otherwise escapes it as a single two-lowercase-hex-digit `%xx` group of its
code point. -/
theorem C10_uri_roundtrip :
    (∀ s : List Char, (∀ c ∈ s, c.toNat < 256) → uri_decode (uri_encode s) = s)
    ∧ (∀ c : Char, c.toNat < 256 →
        (hex_encode c = [c] ↔ ('+' < c ∧ c < Char.ofNat 0x7f ∧ c ≠ '@')))
    ∧ (∀ c : Char, c.toNat < 256 → ¬ ('+' < c ∧ c < Char.ofNat 0x7f ∧ c ≠ '@') →
        hex_encode c = ['%', hexDigitChar (c.toNat / 16), hexDigitChar (c.toNat % 16)]) := by
  refine ⟨fun s h => uri_roundtrip_aux s h _ le_rfl, fun c hc => ?_, fun c hc hlit => ?_⟩
  · constructor
    · intro he
      by_contra hlit
      have hp' : uriPassLiteral c = false := by
        unfold uriPassLiteral
        rcases not_and_or.mp hlit with h1 | h12
        · simp [h1]
        · rcases not_and_or.mp h12 with h2 | h3
          · simp [h2]
          · simp only [ne_eq, not_not] at h3
            simp [h3]
      obtain ⟨hms, _, _, _⟩ := hexStrMin2_spec c.toNat hc
      rw [hex_encode, if_neg (by simp [hp']), hms] at he
      exact absurd he (by simp)
    · intro hlit
      have hp : uriPassLiteral c = true := by
        unfold uriPassLiteral
        simp [hlit.1, hlit.2.1, hlit.2.2]
      simp [hex_encode, hp]
  · have hp' : uriPassLiteral c = false := by
      unfold uriPassLiteral
      rcases not_and_or.mp hlit with h1 | h12
      · simp [h1]
      · rcases not_and_or.mp h12 with h2 | h3
        · simp [h2]
        · simp only [ne_eq, not_not] at h3
          simp [h3]
    obtain ⟨hms, _, _, _⟩ := hexStrMin2_spec c.toNat hc
    rw [hex_encode, if_neg (by simp [hp']), hms]
  
/-- C10 witness. -/
theorem C10_uri_roundtrip_witness :
    uri_decode (uri_encode ("a b@%".data)) = "a b@%".data :=
  C10_uri_roundtrip.1 ("a b@%".data) (by decide)

theorem insertByBenefit_perm (x : SegmentInfo) (l : List SegmentInfo) :
    (insertByBenefit x l).Perm (x :: l) := by
  induction l with
  | nil => exact List.Perm.refl _
  | cons y l ih =>
    unfold insertByBenefit
    split
    · exact (ih.cons y).trans (List.Perm.swap x y l)
    · exact List.Perm.refl _

theorem foldl_insertByBenefit_perm (l acc : List SegmentInfo) :
    (l.foldl (fun a x => insertByBenefit x a) acc).Perm (acc ++ l) := by
  induction l generalizing acc with
  | nil => simp
  | cons x l ih =>
    refine (ih (insertByBenefit x acc)).trans ?_
    refine ((insertByBenefit_perm x acc).append_right l).trans ?_
    exact List.perm_middle.symm

theorem insertByBenefit_sorted (x : SegmentInfo) (l : List SegmentInfo)
    (h : l.Pairwise benefitGE) : (insertByBenefit x l).Pairwise benefitGE := by
  induction l with
  | nil => simp [insertByBenefit]
  | cons y l ih =>
    rw [List.pairwise_cons] at h
    obtain ⟨hy, hl⟩ := h
    unfold insertByBenefit
    split
    · rename_i hxy
      refine List.pairwise_cons.mpr ⟨?_, ih hl⟩
      intro z hz
      rcases List.mem_cons.mp ((insertByBenefit_perm x l).mem_iff.mp hz) with hzx | hzl
      · rw [hzx]; exact hxy
      · exact hy z hzl
    · rename_i hxy
      push_neg at hxy
      refine List.pairwise_cons.mpr ⟨?_, List.pairwise_cons.mpr ⟨hy, hl⟩⟩
      intro z hz
      rcases List.mem_cons.mp hz with hzy | hzl
      · rw [hzy]; exact le_of_lt hxy
      · exact le_trans (hy z hzl) (le_of_lt hxy)

theorem foldl_insertByBenefit_sorted (l acc : List SegmentInfo)
    (hacc : acc.Pairwise benefitGE) :
    (l.foldl (fun a x => insertByBenefit x a) acc).Pairwise benefitGE := by
  induction l generalizing acc with
  | nil => exact hacc
  | cons x l ih => exact ih _ (insertByBenefit_sorted x acc hacc)

/-- C8: `get_segment_cleaning_list` returns exactly the rows with
`expire_time IS NULL`, each carrying
`benefit = (1 - u) * (age + boost) / (u + 0.1)` with missing `age_days` /
`used_bytes` as 0, sorted in non-increasing benefit order; on the spec's
two segments the benefits are 150/7 ≈ 21.43 and 50/17 ≈ 2.94 and the
lightly-used segment is listed first. -/
theorem C8_cleaning_list :
    (∀ (boost : ℚ) (rows : List SegmentInfoRow),
        (get_segment_cleaning_list boost rows).Perm
          ((rows.filter (fun r => r.expire_time = none)).map (mkSegmentInfo boost)))
    ∧ (∀ (boost : ℚ) (rows : List SegmentInfoRow),
        (get_segment_cleaning_list boost rows).Pairwise benefitGE)
    ∧ get_segment_cleaning_list 0 c8rows
        = [mkSegmentInfo 0 ⟨1, some 250, 1000, 0, some 10, none⟩,
           mkSegmentInfo 0 ⟨2, some 750, 1000, 0, some 10, none⟩]
    ∧ (mkSegmentInfo 0 ⟨1, some 250, 1000, 0, some 10, none⟩).cleaning_benefit = 150/7
    ∧ (mkSegmentInfo 0 ⟨2, some 750, 1000, 0, some 10, none⟩).cleaning_benefit = 50/17 := by
  refine ⟨fun boost rows => ?_, fun boost rows => ?_,
    by norm_num [get_segment_cleaning_list, c8rows, sortByBenefit, insertByBenefit,
      mkSegmentInfo],
    by norm_num [mkSegmentInfo], by norm_num [mkSegmentInfo]⟩
  · unfold get_segment_cleaning_list sortByBenefit
    exact (foldl_insertByBenefit_perm _ []).trans (by rw [List.nil_append])
  · unfold get_segment_cleaning_list sortByBenefit
    exact foldl_insertByBenefit_sorted _ [] (List.Pairwise.nil)

theorem ts_c2 : target_size 1200 500 = 1000 := by
  unfold target_size target_buckets
  have hb : ((1200 : Int) : ℝ) / ((500 : ℚ) : ℝ) = 12/5 := by norm_num
  rw [hb]
  have h1 : (1:ℝ) ≤ (12/5 : ℝ) ^ (0.4 : ℝ) := by
    calc (1:ℝ) = (1:ℝ) ^ (0.4:ℝ) := (Real.one_rpow _).symm
    _ ≤ (12/5 : ℝ) ^ (0.4:ℝ) := Real.rpow_le_rpow (by norm_num) (by norm_num) (by norm_num)
  have hpos : (0:ℝ) < 2 * (12/5 : ℝ) ^ (0.4:ℝ) := by nlinarith
  have hdiv : ((1200 : Int) : ℝ) / (2 * (12/5 : ℝ) ^ (0.4:ℝ)) ≤ 1000 := by
    rw [div_le_iff₀ hpos]
    nlinarith
  rw [max_eq_left (by push_cast; linarith)]
  norm_num

theorem tsc_c2 : targetSizeCeil 1200 500 = 1000 := by
  unfold targetSizeCeil
  rw [ts_c2]
  norm_num

theorem rpow_c3 : (1/10 : ℝ) ^ (0.4 : ℝ) < 1/2 := by
  by_contra hcon
  push_neg at hcon
  have h5 : ((1/2 : ℝ)) ^ (5:ℕ) ≤ ((1/10 : ℝ) ^ (0.4:ℝ)) ^ (5:ℕ) :=
    pow_le_pow_left₀ (by norm_num) hcon 5
  have heq : ((1/10 : ℝ) ^ (0.4:ℝ)) ^ (5:ℕ) = 1/100 := by
    rw [← Real.rpow_natCast ((1/10 : ℝ) ^ (0.4:ℝ)) 5, ← Real.rpow_mul (by norm_num)]
    rw [show (0.4 : ℝ) * (5:ℕ) = ((2:ℕ):ℝ) by norm_num, Real.rpow_natCast]
    norm_num
  rw [heq] at h5
  norm_num at h5

theorem tb_c3_lt_one : target_buckets 100 1000 < 1 := by
  unfold target_buckets
  have hb : ((100 : Int) : ℝ) / ((1000 : ℚ) : ℝ) = 1/10 := by norm_num
  rw [hb]
  have := rpow_c3
  linarith

theorem tsc_c3 : targetSizeCeil 100 1000 = 2000 := by
  unfold targetSizeCeil target_size target_buckets
  have hb : ((100 : Int) : ℝ) / ((1000 : ℚ) : ℝ) = 1/10 := by norm_num
  rw [hb]
  have h1 : (1/10 : ℝ) ≤ (1/10 : ℝ) ^ (0.4 : ℝ) := by
    calc (1/10 : ℝ) = (1/10 : ℝ) ^ ((1:ℝ)) := (Real.rpow_one _).symm
    _ ≤ (1/10 : ℝ) ^ (0.4:ℝ) :=
      Real.rpow_le_rpow_of_exponent_ge (by norm_num) (by norm_num) (by norm_num)
  have hpos : (0:ℝ) < 2 * (1/10 : ℝ) ^ (0.4:ℝ) := by nlinarith
  have hdiv : ((100 : Int) : ℝ) / (2 * (1/10 : ℝ) ^ (0.4:ℝ)) ≤ 2000 := by
    rw [div_le_iff₀ hpos]
    nlinarith
  rw [max_eq_left (by push_cast; linarith)]
  norm_num

theorem sqliteRound_ten : sqliteRound (10 : ℚ) = 10 := by
  norm_num [sqliteRound]

theorem hest_c3 : segmentSizeEstimate c3segs c3rows = 1000 := by
  simp [segmentSizeEstimate, c3segs, c3rows]

theorem hdist_c3 : ageDistribution 0 c3rows = [(10, 1, 100)] := by
  simp [ageDistribution, c3rows, sortInts, insortInt, dedupInts, memInt, sqliteRound_ten]

theorem hcut_c3 : computeCutoffs 2000 (3/2 * 1000) [(10, 1, 100)] = [-1, -1] := by
  norm_num [computeCutoffs, cutoffStep, MIN_AGE]

theorem hassign_c3 : assignBuckets 0 0 [-1, -1] c3rows = [⟨1, 1, 100, -10, some 1⟩] := by
  simp [assignBuckets, applyCutoff, c3rows, sqliteRound_ten]

theorem balance_c3_run :
    balance_expired_objects 0 c3segs c3rows
      = ([⟨1, 1, 100, -10, some 1⟩], [-1, -1]) := by
  have hreset : resetExpired c3rows = c3rows := by norm_num [resetExpired, c3rows]
  have hclamp : clampTimestamps 0 c3rows = c3rows := by
    norm_num [clampTimestamps, c3rows]
  simp only [balance_expired_objects]
  rw [hreset, hest_c3, if_neg (by norm_num), hclamp, hdist_c3]
  rw [show (([((10:ℤ), (1:ℤ), (100:ℤ))]).map (fun i => i.2.2)).sum = 100 by norm_num]
  rw [tsc_c3, hcut_c3, hassign_c3]

theorem sqliteRound_one : sqliteRound (1 : ℚ) = 1 := by
  norm_num [sqliteRound]

theorem sqliteRound_two : sqliteRound (2 : ℚ) = 2 := by
  norm_num [sqliteRound]

theorem hreset_c2 : resetExpired c2rows = c2rowsReset := by
  norm_num [resetExpired, c2rows, c2rowsReset]
  exact ⟨Option.some_ne_none 7, Option.some_ne_none 3⟩

theorem hest_c2 : segmentSizeEstimate c2segs c2rowsReset = 500 := by
  simp [segmentSizeEstimate, c2segs, c2rowsReset]

theorem hclamp_c2 : clampTimestamps 0 c2rowsReset = c2rowsReset := by
  norm_num [clampTimestamps, c2rowsReset]

theorem hdist_c2 : ageDistribution 0 c2rowsReset
    = [(1, 1, 100), (2, 1, 100), (10, 1, 1000)] := by
  simp [ageDistribution, c2rowsReset, sortInts, insortInt, dedupInts, memInt,
    sqliteRound_one, sqliteRound_two, sqliteRound_ten]

theorem hcut_c2 : computeCutoffs 1000 (3/2 * 500) [(1, 1, 100), (2, 1, 100), (10, 1, 1000)]
    = [-1, 2] := by
  norm_num [computeCutoffs, cutoffStep, MIN_AGE]

theorem hassign_c2 : assignBuckets 0 0 [-1, 2] c2rowsReset
    = [⟨1, 1, 100, -1, some 0⟩, ⟨2, 1, 100, -2, some 0⟩,
       ⟨3, 1, 1000, -10, some 1⟩, ⟨4, 2, 55, -5, none⟩] := by
  simp [assignBuckets, applyCutoff, c2rowsReset, sqliteRound_one, sqliteRound_two,
    sqliteRound_ten]

theorem balance_c2_run :
    balance_expired_objects 0 c2segs c2rows
      = ([⟨1, 1, 100, -1, some 0⟩, ⟨2, 1, 100, -2, some 0⟩,
          ⟨3, 1, 1000, -10, some 1⟩, ⟨4, 2, 55, -5, none⟩], [-1, 2]) := by
  simp only [balance_expired_objects]
  rw [hreset_c2, hest_c2, if_neg (by norm_num), hclamp_c2, hdist_c2]
  rw [show (([((1:ℤ), (1:ℤ), (100:ℤ)), ((2:ℤ), (1:ℤ), (100:ℤ)),
      ((10:ℤ), (1:ℤ), (1000:ℤ))]).map (fun i => i.2.2)).sum = 1200 by norm_num]
  rw [tsc_c2, hcut_c2, hassign_c2]

theorem resetExpired_vals (rows : List BlockRow) (r : BlockRow)
    (hr : r ∈ resetExpired rows) (v : ℤ) (hv : r.expired = some v) : v = 0 := by
  unfold resetExpired at hr
  obtain ⟨r₀, _, rfl⟩ := List.mem_map.mp hr
  by_cases h0 : r₀.expired ≠ none
  · rw [if_pos h0] at hv
    simp at hv
    omega
  · rw [if_neg h0] at hv
    push_neg at h0
    rw [h0] at hv
    cases hv

theorem clampTimestamps_expired (now : ℚ) (rows : List BlockRow) (r : BlockRow)
    (hr : r ∈ clampTimestamps now rows) : ∃ r₀ ∈ rows, r.expired = r₀.expired := by
  unfold clampTimestamps at hr
  obtain ⟨r₀, h₀, rfl⟩ := List.mem_map.mp hr
  refine ⟨r₀, h₀, ?_⟩
  split <;> rfl

theorem assignBuckets_vals (now : ℚ) (cs : List Int) : ∀ (i0 : Nat)
    (rows : List BlockRow) (r : BlockRow), r ∈ assignBuckets now i0 cs rows →
    ∀ v : ℤ, r.expired = some v →
    (∃ r₀ ∈ rows, r₀.expired = some v)
    ∨ (∃ j : Nat, v = (j : ℤ) ∧ i0 ≤ j ∧ j < i0 + cs.length) := by
  induction cs with
  | nil =>
    intro i0 rows r hr v hv
    exact Or.inl ⟨r, hr, hv⟩
  | cons c cs ih =>
    intro i0 rows r hr v hv
    simp only [assignBuckets] at hr
    rcases ih (i0 + 1) (applyCutoff now (i0 : ℤ) c rows) r hr v hv with
      ⟨r₀, h₀, he⟩ | ⟨j, hj1, hj2, hj3⟩
    · unfold applyCutoff at h₀
      obtain ⟨r₁, h₁, rfl⟩ := List.mem_map.mp h₀
      by_cases hcond : r₁.expired ≠ none ∧ sqliteRound (now - r₁.timestamp) > c
      · rw [if_pos hcond] at he
        simp at he
        refine Or.inr ⟨i0, by omega, le_refl _, by simp⟩
      · rw [if_neg hcond] at he
        exact Or.inl ⟨r₁, h₁, he⟩
    · exact Or.inr ⟨j, hj1, by omega, by simp; omega⟩

/-- C3 (amended): after `balance_expired_objects`, every `block_index` row
whose `expired` is non-NULL carries a value `v` with `0 ≤ v < max(#cutoffs,
1)`: the values are the bucket indices `0 .. #cutoffs - 1` (or the `0`
written by step 1 when the function returns early), and never negative.
The original claim's additional bound `K ≤ target_buckets` is dropped — it
fails, see the counterexample. -/
theorem C3_expired_value_range (now : ℚ) (segs : List SegRow) (rows : List BlockRow)
    (r : BlockRow) (hr : r ∈ (balance_expired_objects now segs rows).1)
    (v : ℤ) (hv : r.expired = some v) :
    0 ≤ v ∧ v < max (((balance_expired_objects now segs rows).2.length : ℤ)) 1 := by
  simp only [balance_expired_objects] at hr ⊢
  by_cases hest : segmentSizeEstimate segs (resetExpired rows) = 0
  · rw [if_pos hest] at hr ⊢
    have hv0 := resetExpired_vals rows r hr v hv
    subst hv0
    exact ⟨le_refl 0, lt_of_lt_of_le Int.zero_lt_one (le_max_right _ _)⟩
  · rw [if_neg hest] at hr ⊢
    rcases assignBuckets_vals now _ 0 _ r hr v hv with ⟨r₀, h₀, he⟩ | ⟨j, hj1, hj2, hj3⟩
    · obtain ⟨r₁, h₁, heq⟩ := clampTimestamps_expired now _ r₀ h₀
      have hv0 := resetExpired_vals rows r₁ h₁ v (heq ▸ he)
      subst hv0
      exact ⟨le_refl 0, lt_of_lt_of_le Int.zero_lt_one (le_max_right _ _)⟩
    · subst hj1
      refine ⟨Int.ofNat_nonneg j, lt_of_lt_of_le ?_ (le_max_left _ _)⟩
      simp at hj3 ⊢
      omega

/-- C2 (counterexample): in the spec's scenario (ages 1, 2, 10 with 100,
100, 1000 bytes, `segment_size_estimate = 500`), the age-2 object ends with
`expired = 0`, not `expired = 1`: the bucket condition is `age > cutoff`
with cutoff 2, so age ≥ 2 does not get bucket 1. -/
theorem C2_age2_gets_bucket0 :
    ¬ (∀ r ∈ (balance_expired_objects 0 c2segs c2rows).1, r.expired ≠ none →
         2 ≤ sqliteRound (0 - r.timestamp) → r.expired = some 1) := by
  intro h
  have hr := h ⟨2, 1, 100, -2, some 0⟩ (by rw [balance_c2_run]; simp) (by simp)
  rw [show (0 : ℚ) - (-2) = 2 by norm_num, sqliteRound_two] at hr
  have := hr (le_refl 2)
  simp at this

/-- C3 (counterexample): with one expired 100-byte age-10 object in a
1000-byte segment, every expired row ends with value 1 while
`target_buckets = 2 * (100/1000) ** 0.4 < 1`, so no `K` can satisfy both
`expired ∈ {0..K}` and `K ≤ target_buckets`. -/
theorem C3_no_target_buckets_bound :
    ¬ ∃ K : ℤ, 0 ≤ K
        ∧ (∀ r ∈ (balance_expired_objects 0 c3segs c3rows).1,
             ∀ v : ℤ, r.expired = some v → 0 ≤ v ∧ v ≤ K)
        ∧ K < ((balance_expired_objects 0 c3segs c3rows).2.length : ℤ)
        ∧ (K : ℝ) ≤ target_buckets 100 1000 := by
  rintro ⟨K, hK0, hbound, hlen, htb⟩
  have hmem : (⟨1, 1, 100, -10, some 1⟩ : BlockRow)
      ∈ (balance_expired_objects 0 c3segs c3rows).1 := by
    rw [balance_c3_run]
    exact List.mem_singleton.mpr rfl
  have h1 : (1 : ℤ) ≤ K := (hbound _ hmem 1 rfl).2
  have h1' : ((1 : ℤ) : ℝ) ≤ (K : ℝ) := by exact_mod_cast h1
  have h2 := tb_c3_lt_one
  rw [Int.cast_one] at h1'
  linarith

/-- C2 (amended): the scenario computes `target_size = 1000` and assigns
`expired = 1` exactly to the objects with age strictly greater than 2 (the
age-10 row); objects with age ≤ 2 (ages 1 and 2) get `expired = 0`, and
NULL rows stay NULL. -/
theorem C2_balance_scenario :
    target_size 1200 500 = 1000
    ∧ balance_expired_objects 0 c2segs c2rows
        = ([⟨1, 1, 100, -1, some 0⟩, ⟨2, 1, 100, -2, some 0⟩,
            ⟨3, 1, 1000, -10, some 1⟩, ⟨4, 2, 55, -5, none⟩], [-1, 2]) :=
  ⟨ts_c2, balance_c2_run⟩

/-- C3 witness: the amended bound instantiated on the concrete run, where
the single expired row carries value 1 and two cutoffs were chosen. -/
theorem C3_expired_value_range_witness :
    0 ≤ (1 : ℤ)
    ∧ (1 : ℤ) < max (((balance_expired_objects 0 c3segs c3rows).2.length : ℤ)) 1 :=
  C3_expired_value_range 0 c3segs c3rows ⟨1, 1, 100, -10, some 1⟩
    (by rw [balance_c3_run]; exact List.mem_singleton.mpr rfl) 1 rfl

theorem takeWhile_append_stop (p : Char → Bool) (A rest : List Char) (x : Char)
    (hA : A.all p = true) (hx : p x = false) :
    (A ++ x :: rest).takeWhile p = A := by
  induction A with
  | nil => simp [List.takeWhile_cons, hx]
  | cons a A ih =>
    rw [List.all_cons, Bool.and_eq_true] at hA
    rw [List.cons_append, List.takeWhile_cons, if_pos hA.1]
    rw [ih hA.2]

theorem drop_append_cons (A : List Char) (x : Char) (R : List Char) :
    (A ++ x :: R).drop (A.length + 1) = R := by
  rw [show A ++ x :: R = (A ++ [x]) ++ R by simp]
  rw [show A.length + 1 = (A ++ [x]).length by simp]
  exact List.drop_left _ _

theorem drop_takeWhile_length (p : Char → Bool) (l : List Char) :
    l.drop ((l.takeWhile p).length) = l.dropWhile p := by
  have h := List.takeWhile_append_dropWhile (p := p) (l := l)
  calc l.drop ((l.takeWhile p).length)
      = (l.takeWhile p ++ l.dropWhile p).drop ((l.takeWhile p).length) := by rw [h]
    _ = l.dropWhile p := List.drop_left _ _

/-- C1 (counterexample): `aa/bb[5]` parses with the exact-size flag TRUE —
the bare-number form lands in the regex's `=?(\d+)` branch (group 6, the
"Size-assertion slice" branch), not in an abbreviated non-exact slice. -/
theorem C1_bare_slice_is_exact :
    parse_ref ("aa/bb[5]".data)
      = some ⟨"aa".data, some ("bb".data), none, some (0, 5, true)⟩
    ∧ parse_ref ("aa/bb[5]".data)
      ≠ some ⟨"aa".data, some ("bb".data), none, some (0, 5, false)⟩ := by
  decide

/-- C1 (amended): every reference `SEG/OBJ[N]` with a bare-number slice
parses to the slice `(start = 0, length = N)` with the exact-size flag
TRUE — identical to the `[=N]` form; only `[S+N]` produces a non-exact
slice. -/
theorem C1_bare_slice_parse (A B ds : List Char)
    (hA : A ≠ []) (hA2 : A.all isRefBodyChar = true)
    (hB : B ≠ []) (hB2 : B.all isLowerHexDigit = true)
    (hd : ds ≠ []) (hd2 : ds.all Char.isDigit = true) :
    parse_ref (A ++ '/' :: (B ++ '[' :: (ds ++ [']'])))
      = some ⟨A, some B, none, some (0, natOfDigits ds, true)⟩ := by
  obtain ⟨a, A', rfl⟩ := List.exists_cons_of_ne_nil hA
  have ha : isRefBodyChar a = true := by
    rw [List.all_cons, Bool.and_eq_true] at hA2
    exact hA2.1
  have haz : a ≠ 'z' := by
    intro h
    rw [h] at ha
    exact absurd ha (by decide)
  have hz : zeroRefParse ((a :: A') ++ '/' :: (B ++ '[' :: (ds ++ [']']))) = none := by
    unfold zeroRefParse
    rw [if_neg ?_]
    intro heq
    rw [List.cons_append, List.take_succ_cons,
      show ("zero[".data) = 'z' :: 'e' :: 'r' :: 'o' :: '[' :: [] from rfl] at heq
    injection heq with h1 h2
    exact haz h1
  have hA2' : (a :: A').all isRefBodyChar = true := by
    rw [List.all_cons, Bool.and_eq_true]
    rw [List.all_cons, Bool.and_eq_true] at hA2
    exact hA2
  have htw : ((a :: A') ++ '/' :: (B ++ '[' :: (ds ++ [']']))).takeWhile isRefBodyChar
      = a :: A' := takeWhile_append_stop _ _ _ _ hA2' (by decide)
  have hdrop : ((a :: A') ++ '/' :: (B ++ '[' :: (ds ++ [']']))).drop ((a :: A').length)
      = '/' :: (B ++ '[' :: (ds ++ [']'])) := List.drop_left _ _
  have htwB : (B ++ '[' :: (ds ++ [']'])).takeWhile isLowerHexDigit = B :=
    takeWhile_append_stop _ _ _ _ hB2 (by decide)
  have hdropB : (B ++ '[' :: (ds ++ [']'])).drop (B.length) = '[' :: (ds ++ [']']) :=
    List.drop_left _ _
  have hbody : parseSliceBody ds = some (0, natOfDigits ds, true) := by
    unfold parseSliceBody
    rw [if_pos (by simp [hd, hd2])]
  have hslice : parseSliceGroup ('[' :: (ds ++ [']'])) = some (0, natOfDigits ds, true) := by
    have h1 : parseSliceGroup ('[' :: (ds ++ [']']))
        = if (ds ++ [']']).getLast? = some ']' then parseSliceBody ((ds ++ [']']).dropLast)
          else none := rfl
    rw [h1, List.getLast?_concat, if_pos rfl, List.dropLast_concat, hbody]
  simp only [parse_ref, hz, htw, hdrop, htwB, hdropB, hslice]
  rw [if_neg (by simp), if_neg hB]

/-- C1 witness. -/
theorem C1_bare_slice_parse_witness :
    parse_ref ("aa".data ++ '/' :: ("bb".data ++ '[' :: ("5".data ++ [']'])))
      = some ⟨"aa".data, some ("bb".data), none, some (0, natOfDigits ("5".data), true)⟩ :=
  C1_bare_slice_parse ("aa".data) ("bb".data) ("5".data)
    (by decide) (by decide) (by decide) (by decide) (by decide) (by decide)

/-- C6 (counterexample): `aa/bb(xyz)` is not a well-formed reference under
the spec's grammar (its checksum field has no `ALGO=HEX` shape), yet
`parse_ref` returns a successful parse instead of failing: the implemented
checksum pattern is `\S+`. -/
theorem C6_invalid_checksum_parses :
    wellFormedRefSpec ("aa/bb(xyz)".data) = false
    ∧ parse_ref ("aa/bb(xyz)".data)
        = some ⟨"aa".data, some ("bb".data), some ("xyz".data), none⟩ := by
  decide

theorem any_range_intro (n i : Nat) (p : Nat → Bool) (hi : i < n) (hp : p i = true) :
    (List.range n).any p = true := by
  rw [List.any_eq_true]
  exact ⟨i, List.mem_range.mpr hi, hp⟩

theorem all_takeWhile (p : Char → Bool) (l : List Char) :
    (l.takeWhile p).all p = true := by
  rw [List.all_eq_true]
  intro a ha
  exact List.mem_takeWhile_imp ha

theorem take_of_prefix_all (p : Char → Bool) (l : List Char) (j : Nat)
    (hj : j ≤ (l.takeWhile p).length) : (l.take j).all p = true := by
  have h1 : l.take j = (l.takeWhile p).take j := by
    have hpre : l.takeWhile p = l.take ((l.takeWhile p).length) :=
      List.prefix_iff_eq_take.mp (List.takeWhile_prefix p)
    rw [hpre, List.take_take, Nat.min_eq_left hj]
  rw [h1, List.all_eq_true]
  intro a ha
  exact List.mem_takeWhile_imp (List.take_subset _ _ ha)

theorem parseSliceBody_form (b : List Char) (s : Nat × Nat × Bool)
    (h : parseSliceBody b = some s) : isSliceBodyForm b = true := by
  unfold parseSliceBody at h
  split at h
  · rename_i hcond
    unfold isSliceBodyForm
    simp only [hcond, Bool.true_or]
  · split at h
    · rename_i ds hds
      split at h
      · rename_i hcond
        simp only [Bool.and_eq_true, decide_eq_true_eq, List.all_eq_true] at hcond
        unfold isSliceBodyForm
        simp [hcond.1]
        exact Or.inl hcond.2
      · cases h
    · split at h
      · rename_i d2 heq
        split at h
        · rename_i hcond
          simp only [Bool.and_eq_true, ne_eq, decide_eq_true_eq] at hcond
          obtain ⟨⟨hd1ne, hd2ne⟩, hd2all⟩ := hcond
          have hd1all : (b.takeWhile Char.isDigit).all Char.isDigit = true :=
            all_takeWhile _ _
          have hb : b = b.takeWhile Char.isDigit ++ '+' :: d2 := by
            conv_lhs => rw [← List.takeWhile_append_dropWhile (p := Char.isDigit) (l := b)]
            rw [← drop_takeWhile_length, heq]
          generalize hD : List.takeWhile Char.isDigit b = d1 at hb hd1ne hd1all
          have hget : b[d1.length]? = some '+' := by
            conv_lhs => rw [hb]
            rw [List.getElem?_append_right (le_refl _)]
            simp
          have htake : b.take d1.length = d1 := by
            conv_lhs => rw [hb]
            exact List.take_left _ _
          have hdrop2 : b.drop (d1.length + 1) = d2 := by
            conv_lhs => rw [hb]
            exact drop_append_cons _ _ _
          have hlen : d1.length < b.length := by
            conv_rhs => rw [hb]
            simp only [List.length_append, List.length_cons]
            omega
          have hany : (List.range b.length).any (fun i =>
              b.get? i = some '+' && b.take i ≠ [] && (b.take i).all Char.isDigit
              && b.drop (i + 1) ≠ [] && (b.drop (i + 1)).all Char.isDigit) = true := by
            refine any_range_intro _ _ _ hlen ?_
            simp [List.get?_eq_getElem?, hget, htake, hdrop2, hd1ne, hd2ne, hd1all, hd2all]
          unfold isSliceBodyForm
          rw [hany, Bool.or_true]
        · cases h
      · cases h

theorem parseSliceGroup_form (d : List Char) (s : Nat × Nat × Bool)
    (h : parseSliceGroup d = some s) : isSliceGroupForm d = true := by
  unfold parseSliceGroup at h
  split at h
  · rename_i rest
    split at h
    · rename_i hlast
      unfold isSliceGroupForm
      simp [hlast, parseSliceBody_form _ _ h]
    · cases h
  · cases h

theorem parseTailSlice_form (d : List Char) (s : Option (Nat × Nat × Bool))
    (h : parseTailSlice d = some s) :
    d = [] ∨ isSliceGroupForm d = true := by
  unfold parseTailSlice at h
  split at h
  · rename_i hnil
    exact Or.inl hnil
  · split at h
    · rename_i sl hsl
      exact Or.inr (parseSliceGroup_form _ _ hsl)
    · cases h

theorem searchChecksum_spec (rest : List Char) :
    ∀ (k0 : Nat) (M : List Char) (sl : Option (Nat × Nat × Bool)),
    searchChecksum rest k0 = some (M, sl) →
    ∃ k, k < k0 ∧ M = rest.take (k + 1) ∧ rest.get? (k + 1) = some ')'
      ∧ parseTailSlice (rest.drop (k + 2)) = some sl := by
  intro k0
  induction k0 with
  | zero => intro M sl h; cases h
  | succ k ih =>
    intro M sl h
    unfold searchChecksum at h
    split at h
    · rename_i hpar
      split at h
      · rename_i sl' hsl
        injection h with h'
        injection h' with h1 h2
        subst h1
        subst h2
        exact ⟨k, Nat.lt_succ_self k, rfl, hpar, hsl⟩
      · obtain ⟨k', hk', hrest⟩ := ih M sl h
        exact ⟨k', Nat.lt_succ_of_lt hk', hrest⟩
    · obtain ⟨k', hk', hrest⟩ := ih M sl h
      exact ⟨k', Nat.lt_succ_of_lt hk', hrest⟩

theorem zeroRefParse_form (l : List Char) (r : ParsedRef)
    (h : zeroRefParse l = some r) : isZeroRefForm l = true := by
  unfold zeroRefParse at h
  split at h
  · rename_i htake
    split at h
    · rename_i hcond
      unfold isZeroRefForm
      simp [htake, hcond.1, hcond.2.1, hcond.2.2]
    · cases h
  · cases h

theorem wf_normal_intro (ckOk : List Char → Bool) (l A B r2 : List Char)
    (hl : l = A ++ '/' :: (B ++ r2))
    (hAne : A ≠ []) (hAall : A.all isRefBodyChar = true)
    (hBne : B ≠ []) (hBall : B.all isLowerHexDigit = true)
    (htr : isTrailerForm ckOk r2 = true) :
    wellFormedRefWith ckOk l = true := by
  subst hl
  have hget : (A ++ '/' :: (B ++ r2))[A.length]? = some '/' := by
    rw [List.getElem?_append_right (le_refl _)]
    simp
  have htake : (A ++ '/' :: (B ++ r2)).take A.length = A := List.take_left _ _
  have hdropi : (A ++ '/' :: (B ++ r2)).drop (A.length + 1) = B ++ r2 :=
    drop_append_cons _ _ _
  have hinner : (List.range ((B ++ r2).length + 1)).any (fun j =>
      (B ++ r2).take j ≠ [] && ((B ++ r2).take j).all isLowerHexDigit
      && isTrailerForm ckOk ((B ++ r2).drop j)) = true := by
    refine any_range_intro _ B.length _
      (by simp only [List.length_append]; omega) ?_
    simp only [Bool.and_eq_true, decide_eq_true_eq]
    refine ⟨⟨?_, ?_⟩, ?_⟩
    · rw [List.take_left]
      exact hBne
    · rw [List.take_left]
      exact hBall
    · rw [List.drop_left]
      exact htr
  have houter : (List.range (A ++ '/' :: (B ++ r2)).length).any (fun i =>
      (A ++ '/' :: (B ++ r2)).get? i = some '/' && (A ++ '/' :: (B ++ r2)).take i ≠ []
      && ((A ++ '/' :: (B ++ r2)).take i).all isRefBodyChar
      && (List.range (((A ++ '/' :: (B ++ r2)).drop (i + 1)).length + 1)).any (fun j =>
           ((A ++ '/' :: (B ++ r2)).drop (i + 1)).take j ≠ []
           && (((A ++ '/' :: (B ++ r2)).drop (i + 1)).take j).all isLowerHexDigit
           && isTrailerForm ckOk (((A ++ '/' :: (B ++ r2)).drop (i + 1)).drop j)))
      = true := by
    refine any_range_intro _ A.length _
      (by simp only [List.length_append, List.length_cons]; omega) ?_
    simp only [Bool.and_eq_true, decide_eq_true_eq]
    refine ⟨⟨⟨?_, ?_⟩, ?_⟩, ?_⟩
    · rw [List.get?_eq_getElem?]
      exact hget
    · rw [htake]
      exact hAne
    · rw [htake]
      exact hAall
    · rw [hdropi]
      exact hinner
  unfold wellFormedRefWith
  rw [houter, Bool.or_true]

theorem trailer_nil (ckOk : List Char → Bool) : isTrailerForm ckOk [] = true := by
  simp [isTrailerForm]

theorem trailer_slice (ckOk : List Char → Bool) (d : List Char) (s : Nat × Nat × Bool)
    (h : parseSliceGroup d = some s) : isTrailerForm ckOk d = true := by
  unfold isTrailerForm
  rw [parseSliceGroup_form d s h]
  simp

theorem trailer_checksum (restc M : List Char) (sl : Option (Nat × Nat × Bool))
    (hsc : searchChecksum restc ((restc.takeWhile (fun c => !c.isWhitespace)).length)
      = some (M, sl)) :
    isTrailerForm isChecksumBodyImpl ('(' :: restc) = true := by
  obtain ⟨k, hk, hM, hpar, htail⟩ := searchChecksum_spec restc _ M sl hsc
  have hparE : restc[k + 1]? = some ')' := by
    rw [← List.get?_eq_getElem?]
    exact hpar
  have hkl : k + 1 < restc.length := by
    by_contra hcon
    push_neg at hcon
    rw [List.getElem?_eq_none hcon] at hparE
    cases hparE
  have hne : restc ≠ [] := by
    intro h0
    rw [h0] at hkl
    simp at hkl
  have hany : (List.range restc.length).any (fun j =>
      restc.get? j = some ')' && isChecksumBodyImpl (restc.take j)
      && (restc.drop (j + 1) = [] || isSliceGroupForm (restc.drop (j + 1)))) = true := by
    refine any_range_intro _ (k + 1) _ hkl ?_
    simp only [Bool.and_eq_true, Bool.or_eq_true, decide_eq_true_eq]
    refine ⟨⟨?_, ?_⟩, ?_⟩
    · rw [List.get?_eq_getElem?]
      exact hparE
    · unfold isChecksumBodyImpl
      simp only [Bool.and_eq_true, ne_eq, decide_eq_true_eq]
      constructor
      · intro h0
        rcases List.take_eq_nil_iff.mp h0 with h1 | h1
        · exact Nat.succ_ne_zero k h1
        · exact hne h1
      · exact take_of_prefix_all _ _ _ (by omega)
    · rcases parseTailSlice_form _ _ htail with h0 | h1
      · exact Or.inl h0
      · exact Or.inr h1
  unfold isTrailerForm
  simp only [List.head?_cons, List.tail_cons, hany]
  simp

theorem parse_ref_some_wf (l : List Char) (r : ParsedRef)
    (h : parse_ref l = some r) : wellFormedRefImpl l = true := by
  simp only [parse_ref] at h
  split at h
  · rename_i r' hzr
    unfold wellFormedRefImpl wellFormedRefWith
    rw [zeroRefParse_form l r' hzr, Bool.true_or]
  · rename_i hzr
    split at h
    · rename_i r1b hd
      have hl : l = l.takeWhile isRefBodyChar ++ '/' :: r1b := by
        conv_lhs =>
          rw [← List.takeWhile_append_dropWhile (p := isRefBodyChar) (l := l)]
        rw [← drop_takeWhile_length, hd]
      have hAall : (l.takeWhile isRefBodyChar).all isRefBodyChar = true :=
        all_takeWhile _ _
      split at h
      · cases h
      · rename_i hAne
        split at h
        · cases h
        · rename_i hBne
          have hr1b : r1b = r1b.takeWhile isLowerHexDigit
              ++ r1b.drop ((r1b.takeWhile isLowerHexDigit).length) := by
            conv_lhs =>
              rw [← List.takeWhile_append_dropWhile (p := isLowerHexDigit) (l := r1b)]
            rw [← drop_takeWhile_length]
          have hBall : (r1b.takeWhile isLowerHexDigit).all isLowerHexDigit = true :=
            all_takeWhile _ _
          split at h
          · rename_i hr2
            have hBr : r1b = r1b.takeWhile isLowerHexDigit ++ [] := by
              conv_lhs => rw [hr1b]
              rw [hr2]
            refine wf_normal_intro _ l _ _ [] ?_ hAne hAall hBne hBall
              (trailer_nil _)
            rw [← hBr]
            exact hl
          · rename_i restc hr2
            split at h
            · rename_i M sl hsc
              have hBr : r1b = r1b.takeWhile isLowerHexDigit ++ '(' :: restc := by
                conv_lhs => rw [hr1b]
                rw [hr2]
              refine wf_normal_intro _ l _ _ ('(' :: restc) ?_ hAne hAall hBne hBall
                (trailer_checksum _ _ _ hsc)
              rw [← hBr]
              exact hl
            · cases h
          · rename_i rest2 hr2
            split at h
            · rename_i sl hsg
              have hBr : r1b = r1b.takeWhile isLowerHexDigit ++ '[' :: rest2 := by
                conv_lhs => rw [hr1b]
                rw [hr2]
              refine wf_normal_intro _ l _ _ ('[' :: rest2) ?_ hAne hAall hBne hBall
                (trailer_slice _ _ _ hsg)
              rw [← hBr]
              exact hl
            · cases h
          · cases h
    · cases h

/-- C6 (amended): every string that fails the implemented reference
grammar — `zero[N]`, or `SEG/OBJ` with an optional parenthesised non-space
checksum token (not necessarily `ALGO=HEX`) and an optional slice — makes
`parse_ref` return `None` (the `BadReference` outcome) rather than a parse.
Under the spec's stricter `ALGO=HEX` checksum grammar the claim fails, see
the counterexample. -/
theorem C6_unmatched_ref_is_none (l : List Char)
    (hwf : wellFormedRefImpl l = false) : parse_ref l = none := by
  cases hp : parse_ref l with
  | none => rfl
  | some r =>
    rw [parse_ref_some_wf l r hp] at hwf
    cases hwf

/-- C6 witness. -/
theorem C6_unmatched_ref_is_none_witness : parse_ref ("abc".data) = none :=
  C6_unmatched_ref_is_none ("abc".data) (by decide)
